import Mathlib

/-!
Verification of the core of AutoGetURLTableForTKU (a monitoring scraper for
paginated listing pages) against its natural-language specification.

The Python sources are shallowly embedded as total Lean functions:

* DOM access (BeautifulSoup) is abstracted: a page or container carries the
  results of the queries the code performs (`select`, `find`, `get_text`,
  attribute lookup).  A field holding the result of `get_text(strip=True)`
  is an arbitrary string; well-formedness predicates record that such
  values are trimmed, which is guaranteed by `strip=True`.
* Optional dictionary fields are `Option String`; a missing key and a key
  stored with value `None` are both `none` (the two are never distinguished
  by the code paths modelled here, only truthiness and defaulted reads are).
* Python regular expressions are embedded as explicit scanners over
  `List Char`.  `re.findall` is modelled by trying every start position;
  for the patterns used by the code, matches cannot overlap in a way that
  produces a number absent from the non-overlapping scan, so the folds the
  callers build from the results coincide.  `\d`, `\s` and `str.strip` are
  modelled on their ASCII meaning.
* Code that can raise (`_extract_current_page` calling `re.search(…, None)`
  when a canonical link has no `content` attribute) returns `Option`.
-/

namespace TKU

/-! ## Python string primitives -/

/-- Model of `str.strip()` at the character-list level (ASCII whitespace). -/
def stripL (l : List Char) : List Char :=
  ((l.dropWhile Char.isWhitespace).reverse.dropWhile Char.isWhitespace).reverse

/-- Model of `str.strip()`. -/
def pyStrip (s : String) : String := String.mk (stripL s.data)

/-- Model of Python slicing `s[:n]`. -/
def pyTake (n : Nat) (s : String) : String := String.mk (s.data.take n)

/-- Numeric value of a digit run, as `int()` computes it. -/
def digitsVal (l : List Char) : Nat := l.foldl (fun n c => 10 * n + (c.toNat - 48)) 0

/-- Model of `str.isdigit()` (ASCII digits). -/
def pyIsDigit (s : String) : Bool := !s.data.isEmpty && s.data.all Char.isDigit

/-- Substring test used to model `sub in hay` and `re.search` of a literal. -/
def infixB (sub : List Char) : List Char → Bool
  | [] => sub.isEmpty
  | c :: rest => sub.isPrefixOf (c :: rest) || infixB sub rest

/-- Model of the Python expression `sub in hay`. -/
def containsSub (hay sub : String) : Bool := infixB sub.data hay.data

/-- Python truthiness of an optional string field (`None` and `''` are falsy). -/
def truthy (o : Option String) : Bool := !(o.getD "").isEmpty

/-- Model of the Python expression `a or b` on two optional string fields. -/
def pyOr (a b : Option String) : Option String := if truthy a then a else b

/-! ## Regular-expression scanners -/

/-- Character class `[A-F0-9]` of the `nid` patterns. -/
def hexUpperB (c : Char) : Bool := c.isDigit || ('A' ≤ c && c ≤ 'F')

/-- Match of `nid=([A-F0-9]+)` anchored at the start of `l`. -/
def nidAt (l : List Char) : Option String :=
  if "nid=".data.isPrefixOf l then
    let ds := (l.drop 4).takeWhile hexUpperB
    if ds.isEmpty then none else some (String.mk ds)
  else none

/-- Model of `re.search(r'nid=([A-F0-9]+)', s)`, returning group 1. -/
def searchNid : List Char → Option String
  | [] => none
  | c :: rest =>
    match nidAt (c :: rest) with
    | some s => some s
    | none => searchNid rest

/-- Shape test for exactly `\d{4}-\d{2}-\d{2}` at the head of a ten-character list. -/
def ymdShape (l : List Char) : Bool :=
  match l with
  | [y1, y2, y3, y4, h1, m1, m2, h2, d1, d2] =>
    y1.isDigit && y2.isDigit && y3.isDigit && y4.isDigit && h1 == '-' &&
    m1.isDigit && m2.isDigit && h2 == '-' && d1.isDigit && d2.isDigit
  | _ => false

/-- Model of `re.search(r'\d{4}-\d{2}-\d{2}', s)`, returning group 0. -/
def searchYMD : List Char → Option String
  | [] => none
  | c :: rest =>
    if ymdShape ((c :: rest).take 10) then some (String.mk ((c :: rest).take 10))
    else searchYMD rest

/-- Model of `re.match(r'\d{4}-\d{2}-\d{2}', s)` viewed as a Boolean. -/
def ymdAtStart (s : String) : Bool := ymdShape (s.data.take 10)

/-- Separator class `[slash-or-hyphen]` of the date-likeness pattern. -/
def sepB (c : Char) : Bool := c == '/' || c == '-'

/-- Consume `\d{1,2}` followed by `[slash-or-hyphen]`; the digit run and the separator
    classes are disjoint, so greedy matching needs no backtracking. -/
def d12Then (l : List Char) : Option (List Char) :=
  let ds := l.takeWhile Char.isDigit
  if ds.length = 1 ∨ ds.length = 2 then
    match l.drop ds.length with
    | c :: rest => if sepB c then some rest else none
    | [] => none
  else none

/-- Alternative `\d{4}[slash-or-hyphen]\d{1,2}[slash-or-hyphen]\d{1,2}` anchored at the start. -/
def dateAlt1 (l : List Char) : Bool :=
  ((l.take 4).length = 4 && (l.take 4).all Char.isDigit) &&
    (match l.drop 4 with
     | c :: rest =>
       sepB c &&
         (match d12Then rest with
          | some rest2 => !(rest2.takeWhile Char.isDigit).isEmpty
          | none => false)
     | [] => false)

/-- Alternative `\d{1,2}[slash-or-hyphen]\d{1,2}[slash-or-hyphen]\d{4}` anchored at the start. -/
def dateAlt2 (l : List Char) : Bool :=
  match d12Then l with
  | some r1 =>
    match d12Then r1 with
    | some r2 => 4 ≤ (r2.takeWhile Char.isDigit).length
    | none => false
  | none => false

/-- Model of the date validator regex search
    `\d{4}[slash-or-hyphen]\d{1,2}[slash-or-hyphen]\d{1,2}|\d{1,2}[slash-or-hyphen]\d{1,2}[slash-or-hyphen]\d{4}` as a Boolean. -/
def dateLikeScan : List Char → Bool
  | [] => false
  | c :: rest => dateAlt1 (c :: rest) || dateAlt2 (c :: rest) || dateLikeScan rest

/-- Date-likeness of an element text, `re.search` truthiness. -/
def dateLikeB (s : String) : Bool := dateLikeScan s.data

/-- Match of `(?:pg=|page=)(\d+)` anchored at the start of `l`. -/
def pgNumAt (l : List Char) : Option Nat :=
  if "pg=".data.isPrefixOf l then
    let ds := (l.drop 3).takeWhile Char.isDigit
    if ds.isEmpty then none else some (digitsVal ds)
  else if "page=".data.isPrefixOf l then
    let ds := (l.drop 5).takeWhile Char.isDigit
    if ds.isEmpty then none else some (digitsVal ds)
  else none

/-- Model of `re.findall(r'(?:pg=|page=)(\d+)', s)` (every start position is
    tried; the pattern cannot restart inside one of its own matches). -/
def pgNums : List Char → List Nat
  | [] => []
  | c :: rest =>
    match pgNumAt (c :: rest) with
    | some n => n :: pgNums rest
    | none => pgNums rest

/-- Model of `re.search(r'(?:pg=|page=)(\d+)', s)`, returning group 1. -/
def firstPgNum (l : List Char) : Option Nat := (pgNums l).head?

/-- Alternative `共?(\d+)\s*頁` of the pagination-text pattern, anchored. -/
def pagAlt1 (l : List Char) : Option Nat :=
  let l1 := match l with
            | c :: rest => if c = '共' then rest else l
            | [] => l
  let ds := l1.takeWhile Char.isDigit
  if ds.isEmpty then none
  else
    match (l1.drop ds.length).dropWhile Char.isWhitespace with
    | c :: _ => if c = '頁' then some (digitsVal ds) else none
    | [] => none

/-- Alternative `(\d+)\s*/\s*(\d+)\s*頁` of the pagination-text pattern. -/
def pagAlt2 (l : List Char) : Option (Nat × Nat) :=
  let ds1 := l.takeWhile Char.isDigit
  if ds1.isEmpty then none
  else
    match (l.drop ds1.length).dropWhile Char.isWhitespace with
    | c :: r1 =>
      if c = '/' then
        let r2 := r1.dropWhile Char.isWhitespace
        let ds2 := r2.takeWhile Char.isDigit
        if ds2.isEmpty then none
        else
          match (r2.drop ds2.length).dropWhile Char.isWhitespace with
          | c2 :: _ => if c2 = '頁' then some (digitsVal ds1, digitsVal ds2) else none
          | [] => none
      else none
    | [] => none

/-- Alternative `total\s+(\d+)` of the pagination-text pattern. -/
def pagAlt3 (l : List Char) : Option Nat :=
  if "total".data.isPrefixOf l then
    let r := l.drop 5
    let ws := r.takeWhile Char.isWhitespace
    if ws.isEmpty then none
    else
      let ds := (r.drop ws.length).takeWhile Char.isDigit
      if ds.isEmpty then none else some (digitsVal ds)
  else none

/-- Numbers contributed by a match of
    `共?(\d+)\s*頁|(\d+)\s*/\s*(\d+)\s*頁|total\s+(\d+)` at one position
    (alternatives tried in the pattern's order, nonempty groups kept). -/
def pagNumsAt (l : List Char) : List Nat :=
  match pagAlt1 l with
  | some n => [n]
  | none =>
    match pagAlt2 l with
    | some (a, b) => [a, b]
    | none =>
      match pagAlt3 l with
      | some n => [n]
      | none => []

/-- Model of `re.findall` of the pagination-text pattern: every start
    position is tried; overlaps only repeat digit-run suffixes of numbers the
    non-overlapping scan already reports, so the maximum the caller folds is
    unchanged. -/
def pagTextNums : List Char → List Nat
  | [] => []
  | c :: rest => pagNumsAt (c :: rest) ++ pagTextNums rest

/-- Search truthiness of `\d+$` (a digit ends the string, or ends it just
    before one trailing newline). -/
def endsDigitB (s : String) : Bool :=
  match s.data.reverse with
  | [] => false
  | c :: rest =>
    c.isDigit || (c == '\n' && (match rest with | d :: _ => d.isDigit | [] => false))

/-- Anchor-text filter `re.compile(r'最後|last|尾頁|more|\d+$')` as a search. -/
def lastTextB (s : String) : Bool :=
  containsSub s "最後" || containsSub s "last" || containsSub s "尾頁" ||
    containsSub s "more" || endsDigitB s

/-- Anchor-text filter `re.compile(r'下一頁|next')` as a search. -/
def nextTextB (s : String) : Bool := containsSub s "下一頁" || containsSub s "next"

/-- Match of `id|nid=([A-F0-9]+)` anchored at the start of `l`; the result's
    inner option is capture group 1 (`none` when the `id` branch matched). -/
def idOrNidAt (l : List Char) : Option (Option String) :=
  if "id".data.isPrefixOf l then some none
  else if "nid=".data.isPrefixOf l then
    let ds := (l.drop 4).takeWhile hexUpperB
    if ds.isEmpty then none else some (some (String.mk ds))
  else none

/-- Model of `re.search(r'id|nid=([A-F0-9]+)', href)`. -/
def searchIdOrNid : List Char → Option (Option String)
  | [] => none
  | c :: rest =>
    match idOrNidAt (c :: rest) with
    | some g => some g
    | none => searchIdOrNid rest

/-! ## Records -/

/-- One listing record (`ListRecord`): the dictionary the extraction stages
    build, with its optional `title`, `link`, `date`, `nid` and `hash` keys. -/
structure Rec where
  title : Option String
  link : Option String
  date : Option String
  nid : Option String
  hash : Option String
deriving DecidableEq, Repr

/-- One persisted row of the record store, restricted to the two columns the
    cross-run key reads (`活動名稱` as `actName`, `起日` as `startDate`). -/
structure StoredRec where
  actName : Option String
  startDate : Option String
deriving DecidableEq, Repr

/-- Python truthiness of `any(row.values())` on a listing record. -/
def recAnyValues (r : Rec) : Bool :=
  truthy r.title || truthy r.link || truthy r.date || truthy r.nid || truthy r.hash

/-! ## detector.py: DataDetector.detect_new_data -/

/-- Set comprehension of `detect_new_data`: the `(活動名稱, 起日)` pairs of the
    persisted records whose two fields are both truthy. -/
def existingKeys (existing : List StoredRec) : List (String × String) :=
  existing.filterMap fun s =>
    if truthy s.actName && truthy s.startDate
    then some (s.actName.getD "", s.startDate.getD "") else none

/-- Cross-run key `(item.get('title', ''), item.get('date', ''))` of a fresh record. -/
def recKey (r : Rec) : String × String := (r.title.getD "", r.date.getD "")

/-- Embedding of `DataDetector.detect_new_data`. -/
def detectNewData (newData : List Rec) (existing : List StoredRec) : List Rec :=
  if newData.isEmpty then []
  else newData.filter fun r => decide (recKey r ∉ existingKeys existing)

/-! ## paginator.py: Paginator._deduplicate_data -/

/-- Loop of `_deduplicate_data`; `seenN` and `seenH` carry the raw `nid` and
    `hash` values (including `None`) added for every kept record. -/
def dedupGo (seenN seenH : List (Option String)) : List Rec → List Rec
  | [] => []
  | r :: rs =>
    let ident := pyOr r.nid r.hash
    if truthy ident = true ∧ ident ∉ seenN ∧ ident ∉ seenH then
      r :: dedupGo (r.nid :: seenN) (r.hash :: seenH) rs
    else dedupGo seenN seenH rs

/-- Embedding of `Paginator._deduplicate_data`. -/
def dedupData (l : List Rec) : List Rec := dedupGo [] [] l

/-- Amended keep-condition: the record's single identifier (`nid` if truthy,
    otherwise `hash`) is truthy and differs from the `nid` and from the `hash`
    of every record kept so far. -/
def amendedKeep (kept : List Rec) (r : Rec) : Prop :=
  truthy (pyOr r.nid r.hash) = true ∧
    pyOr r.nid r.hash ∉ kept.map Rec.nid ∧ pyOr r.nid r.hash ∉ kept.map Rec.hash

instance (kept : List Rec) (r : Rec) : Decidable (amendedKeep kept r) := by
  unfold amendedKeep; infer_instance

/-- Reference formulation of the deduplication pass, written from the amended
    claim: the kept records seen so far are carried explicitly. -/
def amendedGo (kept : List Rec) : List Rec → List Rec
  | [] => []
  | r :: rs =>
    if amendedKeep kept r then r :: amendedGo (kept ++ [r]) rs
    else amendedGo kept rs

/-- Reference deduplication, amended-claim formulation. -/
def amendedDedup (l : List Rec) : List Rec := amendedGo [] l

/-! ## paginator.py: Paginator._generate_page_urls

`urllib.parse` is standard-library code, modelled at the level the caller
uses it: `urlparse` splits scheme, netloc, path (params stripped from the
last segment) and query; `parse_qs` groups `k=v` pairs (blank values and
pairs without `=` dropped); `urlencode`/`quote_plus` percent-encode with the
always-safe set.  Percent-decoding of the incoming query and the UTF-8
percent-encoding of non-ASCII output characters are not modelled (the site
identifiers in scope are plain ASCII tokens). -/

/-- Scheme characters accepted by `urllib.parse.urlsplit`. -/
def schemeChar (c : Char) : Bool := c.isAlphanum || c == '+' || c == '-' || c == '.'

/-- Take the part of `l` strictly before the first occurrence of `c`. -/
def takeUntil (c : Char) (l : List Char) : List Char := l.takeWhile (· ≠ c)

/-- Strip `;params` from the last path segment, as `urlparse` does before the
    caller rebuilds `{scheme}://{netloc}{path}`. -/
def stripPathParams (p : List Char) : List Char :=
  if p.contains '/' then
    let lastSeg := (p.reverse.takeWhile (· ≠ '/')).reverse
    p.take (p.length - lastSeg.length) ++ takeUntil ';' lastSeg
  else takeUntil ';' p

/-- Split a URL as `urlparse` does, returning the reconstructed
    `{scheme}://{netloc}{path}` base and the query string. -/
def pyUrlSplit (u : String) : String × String :=
  let noFrag := takeUntil '#' u.data
  let schemeRest : List Char × List Char :=
    let pre := takeUntil ':' noFrag
    if pre.length < noFrag.length ∧ pre ≠ [] ∧ pre.headI.isAlpha ∧ pre.all schemeChar
    then (pre.map Char.toLower, noFrag.drop (pre.length + 1))
    else ([], noFrag)
  let rest := schemeRest.2
  let netlocRest : List Char × List Char :=
    if "//".data.isPrefixOf rest then
      let after := rest.drop 2
      let nl := after.takeWhile fun c => c ≠ '/' ∧ c ≠ '?' ∧ c ≠ '#'
      (nl, after.drop nl.length)
    else ([], rest)
  let path := stripPathParams (takeUntil '?' netlocRest.2)
  let query := (netlocRest.2.dropWhile (· ≠ '?')).drop 1
  (String.mk schemeRest.1 ++ "://" ++ String.mk netlocRest.1 ++ String.mk path,
   String.mk query)

/-- Loop of the character splitter modelling `str.split(sep)`. -/
def splitOnCharGo (c : Char) : List Char → List Char → List (List Char)
  | [], acc => [acc.reverse]
  | x :: rest, acc =>
    if x = c then acc.reverse :: splitOnCharGo c rest []
    else splitOnCharGo c rest (x :: acc)

/-- Model of `str.split(sep)` for a one-character separator. -/
def splitOnChar (c : Char) (l : List Char) : List (List Char) := splitOnCharGo c l []

/-- Pairs of `parse_qs` with default flags: split on `&`, split each pair at
    the first `=`, drop pairs without `=` and pairs with a blank value. -/
def parseQsPairs (query : String) : List (String × String) :=
  (splitOnChar '&' query.data).filterMap fun nv =>
    let name := takeUntil '=' nv
    if name.length = nv.length then none
    else
      let v := nv.drop (name.length + 1)
      if v.isEmpty then none else some (String.mk name, String.mk v)

/-- First value of the `spid` query parameter:
    `parse_qs(query).get('spid', [None])[0]`. -/
def spidOf (query : String) : Option String :=
  (parseQsPairs query).findSome? fun kv => if kv.1 = "spid" then some kv.2 else none

/-- Encoding of one character under `urllib.parse.quote_plus` (always-safe
    characters kept, space to `+`, other ASCII percent-encoded uppercase;
    non-ASCII characters are passed through, see the section comment). -/
def quotePlusChar (c : Char) : List Char :=
  if c.isAlphanum || c == '-' || c == '.' || c == '_' || c == '~' then [c]
  else if c == ' ' then ['+']
  else if c.toNat < 128 then
    ['%', Nat.digitChar (c.toNat / 16) |>.toUpper, Nat.digitChar (c.toNat % 16) |>.toUpper]
  else [c]

/-- Model of `urllib.parse.quote_plus` on one string. -/
def quotePlusStr (s : String) : String := String.mk (s.data.flatMap quotePlusChar)

/-- Model of `urllib.parse.urlencode(d, doseq=True)` on an ordered pair list
    of string values. -/
def urlencodePairs (pairs : List (String × String)) : String :=
  String.intercalate "&" (pairs.map fun kv => quotePlusStr kv.1 ++ "=" ++ quotePlusStr kv.2)

/-- Embedding of `Paginator._generate_page_urls`.  `infoPageParam` models
    `pagination_info.get('page_param', …)` (the analyzer's dictionary has no
    such key, so callers pass `none`); `cfg` models `pagination_config`:
    `none` for a falsy config (absent or `{}`), `some pp` for a truthy config
    whose optional `page_param` entry is `pp`. -/
def generatePageUrls (baseUrl : String) (totalPages : Nat)
    (infoPageParam : Option String) (cfg : Option (Option String)) : List String :=
  let split := pyUrlSplit baseUrl
  let basePath := split.1
  let spid := spidOf split.2
  -- computed from the override exactly as the source does, and like the
  -- source never read below: the loop hardcodes 'pg'
  let pageParam := match cfg with
                   | some c => c.getD "pg"
                   | none => infoPageParam.getD "pg"
  (List.range' 1 totalPages).map fun page =>
    let pageQuery : List (String × String) :=
      if page = 1 ∧ truthy spid then [("spid", spid.getD "")]
      else
        ("pg", toString page) ::
          (match spid with
           | some s => if s.isEmpty then [] else [("spid", s)]
           | none => [])
    let _ := pageParam
    basePath ++ "?" ++ urlencodePairs pageQuery

/-- Page-URL list as the amended claim words it: pages 1 to N in order; page 1
    keeps only `spid` when the original URL carries one (else it gets `pg=1`);
    every later page gets literally `pg={page}`, plus `spid` when present —
    independently of any configured or inferred page-parameter name. -/
def specGenUrls (baseUrl : String) (totalPages : Nat) : List String :=
  let split := pyUrlSplit baseUrl
  let spid := spidOf split.2
  (List.range' 1 totalPages).map fun page =>
    match spid with
    | some s =>
      if s.isEmpty then split.1 ++ "?pg=" ++ toString page
      else if page = 1 then split.1 ++ "?spid=" ++ quotePlusStr s
      else split.1 ++ "?pg=" ++ toString page ++ "&spid=" ++ quotePlusStr s
    | none => split.1 ++ "?pg=" ++ toString page

/-! ## smart_parser.py: the DOM abstraction

An element carries the results of the accessors the code applies to it; a
container additionally carries the CSS queries run inside it.  Every `text`
or `getText` field models `get_text(strip=True)`; `hiddenSpan` models the
stripped text of `find('span', class_=re.compile('hidden'))`. -/

/-- One DOM element as the general-mode extractor reads it. -/
structure Elem where
  name : String
  text : String
  href : Option String
deriving Repr

/-- One table cell (`td`/`th`) as the table-mode extractor reads it. -/
structure Cell where
  anchor : Option Elem
  hiddenSpan : Option String
  text : String
deriving Repr

/-- One listing container (a table row or a card element). -/
structure Container where
  name : String
  cells : List Cell
  select : String → List Elem
  getText : String

/-- One fetched listing page as `parse` queries it. -/
structure ParsePage where
  select : String → List Container

/-! ## smart_parser.py: SmartParser extraction -/

/-- Embedding of `SmartParser._is_table_mode`. -/
def isTableMode (sel : String) : Bool :=
  ["tbody", "table", "tr", "td", "th"].any fun t => containsSub sel.toLower t

/-- Embedding of `SmartParser._extract_table_row`. -/
def extractTableRow (row : Container) : Option Rec :=
  match row.cells with
  | [] => none
  | c0 :: rest =>
    let tl : Option String × Option String :=
      match c0.anchor with
      | some a => (some a.text, some (a.href.getD ""))
      | none => (none, none)
    let nid : Option String :=
      match tl.2 with
      | some l => searchNid l.data
      | none => none
    let spanDate : Option String :=
      match c0.hiddenSpan with
      | some t => searchYMD (t.data.filter (· ≠ ','))
      | none => none
    let date : Option String :=
      match rest with
      | c1 :: _ =>
        let t := pyStrip c1.text
        if ¬ t.isEmpty ∧ ymdAtStart t then some t else spanDate
      | [] => spanDate
    if truthy tl.1 then some ⟨tl.1, tl.2, date, nid, none⟩ else none

/-- Table-row extraction as the amended claim words it: the first cell's
    anchor yields title and link (no anchor or a blank title yields no
    record); `nid` is the hexadecimal run after `nid=` in the link; the date
    is the second cell's stripped text when that is non-empty and begins with
    `YYYY-MM-DD`, and only failing that the `YYYY-MM-DD` substring of the
    first cell's hidden span (commas removed); no `hash` is attached. -/
def specTableRow (row : Container) : Option Rec :=
  match row.cells with
  | [] => none
  | c0 :: rest =>
    match c0.anchor with
    | none => none
    | some a =>
      if a.text.isEmpty then none
      else
        let link := a.href.getD ""
        let spanDate := c0.hiddenSpan.bind fun t => searchYMD (t.data.filter (· ≠ ','))
        let date :=
          match rest.head? with
          | some c1 =>
            if ¬ (pyStrip c1.text).isEmpty ∧ ymdAtStart (pyStrip c1.text)
            then some (pyStrip c1.text) else spanDate
          | none => spanDate
        some ⟨some a.text, some link, date, searchNid link.data, none⟩

/-- Detected selectors of `_auto_detect_fields`, in the fixed field order. -/
structure Detected where
  title : Option String
  link : Option String
  date : Option String
deriving Repr, DecidableEq

/-- Embedding of `SmartParser._validate_element`. -/
def validateElem (e : Elem) (v : Elem → Bool) : Bool :=
  !e.text.isEmpty && decide (2 ≤ e.text.length) && v e

/-- Title validator lambda of the field-pattern table. -/
def titleVal (e : Elem) : Bool := decide (5 < e.text.length)

/-- Link validator lambda of the field-pattern table. -/
def linkVal (e : Elem) : Bool := (e.name == "a") && truthy e.href

/-- Date validator lambda of the field-pattern table. -/
def dateVal (e : Elem) : Bool := dateLikeB e.text

/-- Selector loop of `_auto_detect_fields` inside one selector group: a
    selector with a validating element overwrites the carried detection, and
    the loop stops as soon as the field is detected (also when it was already
    detected by an earlier group). -/
def groupScan (c : Container) (validator : Elem → Bool) :
    Option String → List String → Option String
  | det, [] => det
  | det, sel :: rest =>
    let det2 := if (c.select sel).any (fun e => validateElem e validator) then some sel else det
    if det2.isSome then det2 else groupScan c validator det2 rest

/-- Fold of `_auto_detect_fields` over one field's selector groups. -/
def detectField (c : Container) (groups : List (List String)) (validator : Elem → Bool) :
    Option String :=
  groups.foldl (fun det g => groupScan c validator det g) none

/-- Selector groups of the `title` field pattern. -/
def titleGroups : List (List String) :=
  [["h1", "h2", "h3", "h4", "h5"],
   [".title", ".headline", ".name", "[class*=\"title\"]", "[class*=\"head\"]",
    "[class*=\"news\"]"],
   ["a", "strong", "[id*=\"title\"]", "[id*=\"news\"]"]]

/-- Selector groups of the `link` field pattern. -/
def linkGroups : List (List String) := [["a[href]", "a", "[href]"]]

/-- Selector groups of the `date` field pattern. -/
def dateGroups : List (List String) :=
  [["time", ".date", ".published", ".time", "[class*=\"date\"]", "[class*=\"time\"]",
    "[class*=\"publish\"]"]]

/-- Embedding of `SmartParser._auto_detect_fields`. -/
def autoDetectFields (c : Container) : Detected :=
  let t := detectField c titleGroups titleVal
  let l := detectField c linkGroups linkVal
  let d := detectField c dateGroups dateVal
  if t.isNone ∧ l.isNone ∧ d.isNone then ⟨some "*", none, none⟩ else ⟨t, l, d⟩

/-- Field loop body of `_extract_general_row` for the `title` entry. -/
def generalTitle (c : Container) (det : Detected) : Option String :=
  match det.title with
  | none => none
  | some sel =>
    if sel = "*" then some (pyTake 100 c.getText)
    else ((c.select sel).head?).map Elem.text

/-- Field loop body of `_extract_general_row` for the `link` entry, paired
    with the `nid` value the branch may add. -/
def generalLinkNid (c : Container) (det : Detected) : Option String × Option String :=
  match det.link with
  | none => (none, none)
  | some sel =>
    if sel = "*" then (some (pyTake 100 c.getText), none)
    else
      match (c.select sel).head? with
      | none => (none, none)
      | some e =>
        let href := e.href.getD ""
        (some href, (searchIdOrNid href.data).getD none)

/-- Field loop body of `_extract_general_row` for the `date` entry. -/
def generalDate (c : Container) (det : Detected) : Option String :=
  match det.date with
  | none => none
  | some sel =>
    if sel = "*" then some (pyTake 100 c.getText)
    else ((c.select sel).head?).bind fun e => searchYMD (pyStrip e.text).data

/-- Title value after the empty-row fallback of `_extract_general_row`. -/
def generalTitle2 (c : Container) (det : Detected) : Option String :=
  let anyVal := truthy (generalTitle c det) || truthy (generalLinkNid c det).1 ||
    truthy (generalLinkNid c det).2 || truthy (generalDate c det)
  if anyVal then generalTitle c det
  else if c.getText.isEmpty then generalTitle c det
  else some (pyTake 100 c.getText)

/-- Embedding of `SmartParser._extract_general_row`. -/
def extractGeneralRow (c : Container) (det : Detected) : Option Rec :=
  if truthy (generalTitle2 c det) then
    some ⟨generalTitle2 c det, (generalLinkNid c det).1, generalDate c det,
          (generalLinkNid c det).2, none⟩
  else none

/-- Per-container loop shared by `_parse_table_mode` and
    `_parse_general_mode`: the step's `Except` failure models the
    `try/except … continue` around one container's extraction. -/
def extractLoop (g : Container → Except Unit (Option Rec)) : List Container → List Rec
  | [] => []
  | c :: cs =>
    match g c with
    | .error _ => extractLoop g cs
    | .ok none => extractLoop g cs
    | .ok (some r) => r :: extractLoop g cs

/-- Loop body of `_parse_table_mode` for one container. -/
def tableStep (c : Container) : Except Unit (Option Rec) :=
  .ok (if c.name ≠ "tr" then none
       else
         match extractTableRow c with
         | some r => if recAnyValues r then some r else none
         | none => none)

/-- Loop body of `_parse_general_mode` for one container. -/
def generalStep (det : Detected) (c : Container) : Except Unit (Option Rec) :=
  .ok (match extractGeneralRow c det with
       | some r => if recAnyValues r then some r else none
       | none => none)

/-- Embedding of `SmartParser.validate_data`. -/
def validateData (l : List Rec) : List Rec := l.filter fun r => truthy r.title

/-- Mode dispatch of `SmartParser.parse` producing the raw record list
    (table mode or general mode with field detection on the first container). -/
def rawParse (p : ParsePage) (sel : String) (tableMode : Option Bool) : List Rec :=
  let autoTable := tableMode.getD false || isTableMode sel
  let containers := p.select sel
  if autoTable then extractLoop tableStep containers
  else
    let det := match containers.head? with
               | some c => autoDetectFields c
               | none => ⟨none, none, none⟩
    extractLoop (generalStep det) containers

/-- Embedding of `SmartParser.parse` (`maxItems` is the instance's
    `max_items`). -/
def parse (maxItems : Nat) (soup : Option ParsePage) (sel : String)
    (tableMode : Option Bool) : List Rec :=
  match soup with
  | none => []
  | some p =>
    if (p.select sel).isEmpty then []
    else (validateData (rawParse p sel tableMode)).take maxItems

/-! ## smart_parser.py: pagination analysis

A page is abstracted to the queries `detect_pagination` runs: the document's
anchors (`text` models the single text node, which is both the `string` the
regex filters test and the `get_text()` the code reads), the first matching
pagination container with its text, the `og:url` meta and canonical link
with their raw attributes (an attribute is `none` when missing — reading
page hints off a canonical link's absent `content` attribute feeds `None`
into `re.search`, which raises; that path is the `Option` failure), and the
raw texts of the found active-page indicators in selector order. -/

/-- One document anchor. -/
structure Anchor where
  href : Option String
  text : String
deriving Repr

/-- The `og:url` meta tag with its `content` attribute. -/
structure MetaTag where
  content : Option String
deriving Repr

/-- The canonical `link` tag with its `href` and `content` attributes. -/
structure LinkTag where
  href : Option String
  content : Option String
deriving Repr

/-- One fetched page as the pagination analyzer queries it. -/
structure PagPage where
  anchors : List Anchor
  pagContainer : Option (String × String)
  ogMeta : Option MetaTag
  canonical : Option LinkTag
  activeTexts : List String
deriving Repr

/-- Dictionary built by `detect_pagination`. -/
structure PaginationInfo where
  totalPages : Nat
  currentPage : Nat
  pagePattern : String
  baseUrl : Option String
  pagSelector : Option String
deriving Repr, DecidableEq

/-- Anchors returned by `find_all('a', href=True)`. -/
def hrefAnchors (p : PagPage) : List Anchor := p.anchors.filter fun a => a.href.isSome

/-- Page numbers found in hyperlink references (signal 1). -/
def linkNums (p : PagPage) : List Nat :=
  (hrefAnchors p).flatMap fun a => pgNums (a.href.getD "").data

/-- Page numbers found in the pagination container's text (signal 2). -/
def contNums (p : PagPage) : List Nat :=
  match p.pagContainer with
  | some pc => pagTextNums pc.2.data
  | none => []

/-- Page numbers found on last-page-style anchors (signal 3). -/
def lastNums (p : PagPage) : List Nat :=
  (p.anchors.filter fun a => lastTextB a.text).filterMap fun a =>
    let t := pyStrip a.text
    if pyIsDigit t then some (digitsVal t.data) else none

/-- All page numbers found across the three signals. -/
def signalNums (p : PagPage) : List Nat := linkNums p ++ contNums p ++ lastNums p

/-- Existence of a next-page control. -/
def hasNextCtrl (p : PagPage) : Bool := p.anchors.any fun a => nextTextB a.text

/-- Embedding of `SmartParser._extract_total_pages_from_pagination`. -/
def extractTotalPages (p : PagPage) : Nat :=
  let m1 := (hrefAnchors p).foldl (fun acc a => (pgNums (a.href.getD "").data).foldl max acc) 1
  let m2 := match p.pagContainer with
            | some pc => (pagTextNums pc.2.data).foldl max m1
            | none => m1
  let m3 := p.anchors.foldl (fun acc a =>
              if lastTextB a.text then
                let t := pyStrip a.text
                if pyIsDigit t then max acc (digitsVal t.data) else acc
              else acc) m2
  let m4 := if hasNextCtrl p ∧ m3 = 1 then 2 else m3
  max 1 m4

/-- Embedding of `SmartParser._extract_current_page`; `none` models the
    `TypeError` that `re.search(pattern, None)` raises when the found hint
    element has no `content` attribute. -/
def extractCurrentPage (p : PagPage) : Option Nat :=
  let urlOpt : Option String :=
    match p.ogMeta with
    | some m => m.content
    | none =>
      match p.canonical with
      | some l => l.content
      | none => some ""
  match urlOpt with
  | none => none
  | some url =>
    match firstPgNum url.data with
    | some n => some n
    | none =>
      match p.activeTexts.find? (fun t => pyIsDigit (pyStrip t)) with
      | some t => some (digitsVal (pyStrip t).data)
      | none => some 1

/-- Fallback of `_get_base_url` to the first hyperlink. -/
def getBaseUrlLinks (p : PagPage) : String :=
  match (hrefAnchors p).head? with
  | some a => a.href.getD ""
  | none => ""

/-- Fallback of `_get_base_url` to the `og:url` meta content. -/
def getBaseUrlOg (p : PagPage) : String :=
  match p.ogMeta with
  | some m =>
    match m.content with
    | some ct => if ct.isEmpty then getBaseUrlLinks p else ct
    | none => getBaseUrlLinks p
  | none => getBaseUrlLinks p

/-- Embedding of `SmartParser._get_base_url`. -/
def getBaseUrl (p : PagPage) : String :=
  match p.canonical with
  | some l =>
    match l.href with
    | some h => if h.isEmpty then getBaseUrlOg p else h
    | none => getBaseUrlOg p
  | none => getBaseUrlOg p

/-- Embedding of `SmartParser.detect_pagination`; `none` propagates the
    exception of `_extract_current_page`. -/
def detectPagination (p : PagPage) : Option PaginationInfo :=
  let sel := p.pagContainer.map Prod.fst
  let tp := extractTotalPages p
  let total := if 1 < tp then tp else 1
  match extractCurrentPage p with
  | none => none
  | some c =>
    let cur := if c ≠ 0 then c else 1
    let b := getBaseUrl p
    some ⟨total, cur, "pg={page}", if b.isEmpty then none else some b, sel⟩

/-! ## excel_manager.py and main.py: the per-site pipeline around the detector

`ExcelManager.save_data` is modelled on the two key columns: concatenate the
loaded rows with the new rows, `drop_duplicates(subset=['活動名稱', '起日'],
keep='last')` (a row is kept at its position when no later row has the same
raw key pair), then rewrite the whole `起日` column through
`pd.to_datetime(…, errors='coerce')` followed by `.dt.strftime('%Y-%m-%d')`,
and sort ascending by `起日` with missing dates last.  The pandas date parse
is modelled for the value shapes the pipeline can store in that column: an
exact `YYYY-MM-DD` with a calendar-valid month and day, optionally followed
by a space or `T` and an in-range `HH:MM` or `HH:MM:SS` clock time, parses
and is stored as its `YYYY-MM-DD` date part; every other value — including a
missing one, a `YYYY-MM-DD`-prefixed string with trailing free text, and an
out-of-range date — coerces to `NaT` and is stored as a missing value again.
Exotic formats pandas would also accept (and the intra-day tie order of the
datetime sort, unstable in pandas anyway) are outside the modelled scope;
the detector only reads the key set, which they cannot change for
program-written stores. -/

/-- Leap-year rule of the Gregorian calendar, as pandas validates dates. -/
def isLeapYear (y : Nat) : Bool := (y % 4 == 0 && y % 100 != 0) || (y % 400 == 0)

/-- Number of days of month `m` in year `y`. -/
def monthLen (y m : Nat) : Nat :=
  if m = 2 then (if isLeapYear y then 29 else 28)
  else if m = 4 ∨ m = 6 ∨ m = 9 ∨ m = 11 then 30 else 31

/-- Acceptance of an `HH:MM` or `HH:MM:SS` clock-time remainder. -/
def timeOk (l : List Char) : Bool :=
  match l with
  | [a1, a2, c1, b1, b2] =>
    a1.isDigit && a2.isDigit && c1 == ':' && b1.isDigit && b2.isDigit &&
      decide (digitsVal [a1, a2] ≤ 23) && decide (digitsVal [b1, b2] ≤ 59)
  | [a1, a2, c1, b1, b2, c2, s1, s2] =>
    a1.isDigit && a2.isDigit && c1 == ':' && b1.isDigit && b2.isDigit && c2 == ':' &&
      s1.isDigit && s2.isDigit && decide (digitsVal [a1, a2] ≤ 23) &&
      decide (digitsVal [b1, b2] ≤ 59) && decide (digitsVal [s1, s2] ≤ 59)
  | _ => false

/-- Acceptance of what may follow the date part: nothing, or a space or `T`
    separator and a valid clock time. -/
def timeRemOk : List Char → Bool
  | [] => true
  | c :: rest => (c == ' ' || c == 'T') && timeOk rest

/-- Model of `pd.to_datetime(s, errors='coerce')` followed by
    `strftime('%Y-%m-%d')` on one `起日` cell value, for the value shapes the
    pipeline stores (see the section comment): the normalized date string, or
    `none` for `NaT`. -/
def pdToDatetimeYmd (s : String) : Option String :=
  let l := s.data
  if ymdShape (l.take 10) then
    let y := digitsVal (l.take 4)
    let m := digitsVal ((l.drop 5).take 2)
    let d := digitsVal ((l.drop 8).take 2)
    if 1 ≤ m ∧ m ≤ 12 ∧ 1 ≤ d ∧ d ≤ monthLen y m then
      if timeRemOk (l.drop 10) then some (String.mk (l.take 10)) else none
    else none
  else none

/-- Column rewrite of one cell: a missing `起日` is `NaT` and comes back as a
    missing value. -/
def pdNormalizeCell (o : Option String) : Option String := o.bind pdToDatetimeYmd

/-- Model of the `起日` column rewrite applied to the merged, deduplicated
    frame before sorting. -/
def normalizeStore (l : List StoredRec) : List StoredRec :=
  l.map fun s => ⟨s.actName, pdNormalizeCell s.startDate⟩

/-- Raw deduplication key pair of `drop_duplicates`. -/
def storedKey (s : StoredRec) : Option String × Option String := (s.actName, s.startDate)

/-- Keep-first-by-key pass (applied to the reversed list to model
    `keep='last'`). -/
def keepFirstGo (seen : List (Option String × Option String)) :
    List StoredRec → List StoredRec
  | [] => []
  | s :: rest =>
    if storedKey s ∈ seen then keepFirstGo seen rest
    else s :: keepFirstGo (storedKey s :: seen) rest

/-- Model of `drop_duplicates(subset=['活動名稱', '起日'], keep='last')`. -/
def dropDupKeepLast (l : List StoredRec) : List StoredRec :=
  (keepFirstGo [] l.reverse).reverse

/-- Lexicographic comparison of character lists; on the `YYYY-MM-DD` strings
    the pipeline stores it coincides with chronological order. -/
def charListLe : List Char → List Char → Bool
  | [], _ => true
  | _ :: _, [] => false
  | a :: as, b :: bs => if a = b then charListLe as bs else decide (a < b)

/-- Sort order of `sort_values(by='起日', ascending=True, na_position='last')`. -/
def storedLeB (a b : StoredRec) : Bool :=
  match a.startDate, b.startDate with
  | none, none => true
  | none, some _ => false
  | some _, none => true
  | some x, some y => charListLe x.data y.data

/-- Model of the save-time sort. -/
def sortStore (l : List StoredRec) : List StoredRec :=
  List.insertionSort (fun a b => storedLeB a b = true) l

/-- Embedding of `ExcelManager.save_data` on the key columns (the early
    return on an empty batch mirrors both the source guard and the caller's
    "nothing to save" path): merge, deduplicate on the raw key pair, rewrite
    the `起日` column through the pandas date round trip, and sort. -/
def saveData (store newRecs : List StoredRec) : List StoredRec :=
  if newRecs.isEmpty then store
  else sortStore (normalizeStore (dropDupKeepLast (store ++ newRecs)))

/-- Key-relevant behaviour of `fetch_detail_page`: an item without a link is
    dropped; `活動名稱` is the stripped title (blank means the item is
    dropped); `起日` is the parsed detail-page start date when the time field
    parsed, else the item's listing date.  `parsedStart` abstracts the
    network fetch and date parsing of one detail page. -/
def fetchDetailKey (it : Rec) (parsedStart : Option String) : Option StoredRec :=
  if ¬ truthy it.link then none
  else
    let name := pyStrip (it.title.getD "")
    let start := match parsedStart with
                 | some d => some d
                 | none => it.date
    if name.isEmpty then none else some ⟨some name, start⟩

/-- One site pipeline pass of `monitor_site` after extraction, for a site
    without the organizer filter: detect new records against the store,
    enrich each (an `outcome` of `none` is a detail fetch that exhausted its
    retries; `some p` is a successful fetch whose date parse produced `p`),
    and save the enriched batch. -/
def runSite (listData : List Rec) (store : List StoredRec)
    (outcome : Rec → Option (Option String)) : List StoredRec :=
  let newItems := detectNewData listData store
  let detailed := newItems.filterMap fun it => (outcome it).bind (fetchDetailKey it)
  if detailed.isEmpty then store else saveData store detailed

/-! ## Predicates and concrete pages used by the theorems -/

/-- A persisted record blocks a fresh record when both its key fields are
    truthy and they equal the fresh record's defaulted `(title, date)` key. -/
def blockedBy (existing : List StoredRec) (r : Rec) : Prop :=
  ∃ s ∈ existing, truthy s.actName = true ∧ truthy s.startDate = true ∧
    s.actName.getD "" = r.title.getD "" ∧ s.startDate.getD "" = r.date.getD ""

instance (existing : List StoredRec) (r : Rec) : Decidable (blockedBy existing r) := by
  unfold blockedBy; infer_instance

/-- Well-formedness of an element model: its `text` holds a
    `get_text(strip=True)` result, which is a trimmed string. -/
def ElemWF (e : Elem) : Prop := pyStrip e.text = e.text

/-- Well-formedness of a cell model: anchor text and cell text are trimmed. -/
def CellWF (cell : Cell) : Prop :=
  (∀ a, cell.anchor = some a → pyStrip a.text = a.text) ∧ pyStrip cell.text = cell.text

/-- Well-formedness of a container model. -/
def ContainerWF (c : Container) : Prop :=
  pyStrip c.getText = c.getText ∧ (∀ s e, e ∈ c.select s → ElemWF e) ∧
    (∀ cell ∈ c.cells, CellWF cell)

/-- Well-formedness of a parse-page model. -/
def PageWF (p : ParsePage) : Prop := ∀ s c, c ∈ p.select s → ContainerWF c

/-- Specification example row
    `<tr><td><a href="detail.aspx?nid=AB12">Event X</a></td><td>2024-05-01</td></tr>`. -/
def exampleRow : Container :=
  ⟨"tr",
   [⟨some ⟨"a", "Event X", some "detail.aspx?nid=AB12"⟩, none, "Event X"⟩,
    ⟨none, none, "2024-05-01"⟩],
   fun _ => [], "Event X"⟩

/-- Specification example page whose links include `...?pg=5` and nothing else. -/
def pgFivePage : PagPage := ⟨[⟨some "list.aspx?pg=5", "link"⟩], none, none, none, []⟩

/-- Specification example page whose pagination container reads `共 3 頁`. -/
def pgThreePage : PagPage := ⟨[], some (".pagination", "共 3 頁"), none, none, []⟩

/-- Page carrying a `pg=1` link together with a next-page control. -/
def pgOneNextPage : PagPage :=
  ⟨[⟨some "a.aspx?pg=1", "link"⟩, ⟨none, "next"⟩], none, none, none, []⟩

/-- Page whose only current-page hint is `og:url` with `pg=0`. -/
def pgZeroPage : PagPage := ⟨[], none, some ⟨some "a.aspx?pg=0"⟩, none, []⟩

/-- Well-formed single-row page used to instantiate the parse theorems. -/
def tablePage : ParsePage := ⟨fun _ => [exampleRow]⟩

/-! ## Lemmas about the detector -/

lemma mem_existingKeys (existing : List StoredRec) (k : String × String) :
    k ∈ existingKeys existing ↔
      ∃ s ∈ existing, truthy s.actName = true ∧ truthy s.startDate = true ∧
        (s.actName.getD "", s.startDate.getD "") = k := by
  simp only [existingKeys, List.mem_filterMap]
  constructor
  · rintro ⟨s, hs, h⟩
    split at h
    · next hc =>
      injection h with h
      exact ⟨s, hs, (Bool.and_eq_true_iff.mp hc).1, (Bool.and_eq_true_iff.mp hc).2, h⟩
    · exact absurd h (by simp)
  · rintro ⟨s, hs, h1, h2, h3⟩
    refine ⟨s, hs, ?_⟩
    rw [if_pos (by simp [h1, h2])]
    exact congrArg some h3

lemma blockedBy_iff (existing : List StoredRec) (r : Rec) :
    blockedBy existing r ↔ recKey r ∈ existingKeys existing := by
  rw [mem_existingKeys]
  unfold blockedBy recKey
  simp only [Prod.mk.injEq]

/-- Claim C1, amended: the detector returns exactly the fresh records whose
    `(title, date)` key does not occur among the persisted records whose
    `活動名稱` and `起日` are both truthy; an empty fresh list yields an empty
    result whatever the store holds; and a persisted record with truthy key
    fields blocks every fresh record carrying the equal key. -/
theorem c1_detector_key_filter :
    (∀ newData existing,
        detectNewData newData existing =
          newData.filter fun r => decide (¬ blockedBy existing r)) ∧
    (∀ existing, detectNewData [] existing = []) ∧
    (∀ newData existing r s, s ∈ existing → r ∈ newData →
        truthy s.actName = true → truthy s.startDate = true →
        s.actName.getD "" = r.title.getD "" → s.startDate.getD "" = r.date.getD "" →
        r ∉ detectNewData newData existing) := by
  have hfilter : ∀ newData existing,
      detectNewData newData existing =
        newData.filter fun r => decide (¬ blockedBy existing r) := by
    intro newData existing
    unfold detectNewData
    cases newData with
    | nil => simp
    | cons a l =>
      simp only [List.isEmpty_cons, Bool.false_eq_true, if_false]
      refine List.filter_congr fun x _ => ?_
      exact decide_eq_decide.mpr (not_congr (blockedBy_iff existing x)).symm
  refine ⟨hfilter, fun existing => rfl, ?_⟩
  intro newData existing r s hs hr h1 h2 h3 h4 hmem
  rw [hfilter] at hmem
  have hx := (List.mem_filter.mp hmem).2
  simp only [decide_eq_true_eq] at hx
  exact hx ⟨s, hs, h1, h2, h3, h4⟩

/-- Witness for C1: a store row `("A", "2024-01-01")` blocks the fresh record
    with the equal key. -/
theorem c1_detector_key_filter_witness :
    (⟨some "A", none, some "2024-01-01", none, none⟩ : Rec) ∉
      detectNewData [⟨some "A", none, some "2024-01-01", none, none⟩]
        [⟨some "A", some "2024-01-01"⟩] :=
  c1_detector_key_filter.2.2 _ _ _ ⟨some "A", some "2024-01-01"⟩ (by decide) (by decide)
    (by decide) (by decide) (by decide) (by decide)

/-- Counterexample to C1 as stated: a persisted record whose `起日` is the
    empty string carries exactly the fresh record's `(title, date)` key, yet
    the detector still classifies the fresh record as new, because the key
    comprehension skips persisted records with a falsy field. -/
theorem c1_blank_key_counterexample :
    (let fresh : Rec := ⟨some "X", none, some "", none, none⟩
     let stored : StoredRec := ⟨some "X", some ""⟩
     (stored.actName.getD "", stored.startDate.getD "") = recKey fresh ∧
       detectNewData [fresh] [stored] = [fresh]) := by decide

/-! ## Lemmas about the aggregation deduplicator -/

lemma pyOr_cases (a b : Option String) : pyOr a b = a ∨ pyOr a b = b := by
  unfold pyOr; split <;> simp

lemma dedupGo_eq_amendedGo :
    ∀ (l : List Rec) (seenN seenH : List (Option String)) (kept : List Rec),
      (∀ x, x ∈ seenN ↔ x ∈ kept.map Rec.nid) →
      (∀ x, x ∈ seenH ↔ x ∈ kept.map Rec.hash) →
      dedupGo seenN seenH l = amendedGo kept l := by
  intro l
  induction l with
  | nil => intro _ _ _ _ _; rfl
  | cons r rs ih =>
    intro seenN seenH kept hN hH
    unfold dedupGo amendedGo
    have hcond : (truthy (pyOr r.nid r.hash) = true ∧ pyOr r.nid r.hash ∉ seenN ∧
        pyOr r.nid r.hash ∉ seenH) ↔ amendedKeep kept r := by
      unfold amendedKeep
      simp only [hN, hH]
    by_cases hc : amendedKeep kept r
    · rw [if_pos (hcond.mpr hc), if_pos hc]
      refine congrArg (r :: ·) (ih _ _ _ ?_ ?_)
      · intro x
        simp only [List.mem_cons, List.map_append, List.mem_append, List.map_cons,
          List.map_nil, List.mem_singleton, hN]
        tauto
      · intro x
        simp only [List.mem_cons, List.map_append, List.mem_append, List.map_cons,
          List.map_nil, List.mem_singleton, hH]
        tauto
    · rw [if_neg (fun h => hc (hcond.mp h)), if_neg hc]
      exact ih _ _ _ hN hH

lemma dedupGo_sublist : ∀ (l : List Rec) (sN sH : List (Option String)),
    (dedupGo sN sH l).Sublist l := by
  intro l
  induction l with
  | nil => intro _ _; simp [dedupGo]
  | cons r rs ih =>
    intro sN sH
    simp only [dedupGo]
    split
    · exact List.cons_sublist_cons.mpr (ih _ _)
    · exact (ih sN sH).cons r

lemma dedupGo_countP (s : String) : ∀ (l : List Rec) (sN sH : List (Option String)),
    ((some s ∈ sN ∨ some s ∈ sH) →
      (dedupGo sN sH l).countP (fun r => pyOr r.nid r.hash == some s) = 0) ∧
    (dedupGo sN sH l).countP (fun r => pyOr r.nid r.hash == some s) ≤ 1 := by
  intro l
  induction l with
  | nil => intro sN sH; simp [dedupGo]
  | cons r rs ih =>
    intro sN sH
    unfold dedupGo
    by_cases hc : truthy (pyOr r.nid r.hash) = true ∧ pyOr r.nid r.hash ∉ sN ∧
        pyOr r.nid r.hash ∉ sH
    · rw [if_pos hc, List.countP_cons]
      by_cases hps : (pyOr r.nid r.hash == some s) = true
      · have heq : pyOr r.nid r.hash = some s := by simpa using hps
        have hz : (dedupGo (r.nid :: sN) (r.hash :: sH) rs).countP
            (fun r => pyOr r.nid r.hash == some s) = 0 := by
          refine (ih _ _).1 ?_
          rcases pyOr_cases r.nid r.hash with h | h
          · exact Or.inl (by rw [← heq, h]; exact List.mem_cons_self _ _)
          · exact Or.inr (by rw [← heq, h]; exact List.mem_cons_self _ _)
        constructor
        · intro hmem
          exfalso
          rcases hmem with hmem | hmem
          · exact hc.2.1 (heq ▸ hmem)
          · exact hc.2.2 (heq ▸ hmem)
        · simp [hz, hps]
      · constructor
        · intro hmem
          have h0 : (dedupGo (r.nid :: sN) (r.hash :: sH) rs).countP
              (fun r => pyOr r.nid r.hash == some s) = 0 := by
            refine (ih _ _).1 ?_
            rcases hmem with hmem | hmem
            · exact Or.inl (List.mem_cons_of_mem _ hmem)
            · exact Or.inr (List.mem_cons_of_mem _ hmem)
          simp [h0, hps]
        · have hle := (ih (r.nid :: sN) (r.hash :: sH)).2
          have hps' : (pyOr r.nid r.hash == some s) = false := by simpa using hps
          simp only [hps', Bool.false_eq_true, if_false]
          omega
    · rw [if_neg hc]
      exact ⟨(ih sN sH).1, (ih sN sH).2⟩

/-- Claim C4, amended: the deduplication pass equals the reference pass that
    keeps a record exactly when its page-local identifier (`nid` if truthy,
    else `hash`) is truthy and differs from the `nid` and from the `hash` of
    every earlier kept record; the output is an order-preserving sublist of
    the input; and at most one record with any given identifier is retained
    (records lacking both identifiers are never kept). -/
theorem c4_dedup_amended :
    (∀ l, dedupData l = amendedDedup l) ∧
    (∀ l, (dedupData l).Sublist l) ∧
    (∀ l s, (dedupData l).countP (fun r => pyOr r.nid r.hash == some s) ≤ 1) := by
  refine ⟨fun l => ?_, fun l => dedupGo_sublist l [] [], fun l s => (dedupGo_countP s l [] []).2⟩
  exact dedupGo_eq_amendedGo l [] [] [] (by simp) (by simp)

/-- Counterexample to C4 as stated: the second record shares the first one's
    content-hash identifier, yet both are kept, because the pass only tests a
    record's single identifier (`nid` if present) against the seen sets. -/
theorem c4_shared_hash_counterexample :
    (let a : Rec := ⟨some "E1", none, none, some "a", some "h"⟩
     let b : Rec := ⟨some "E2", none, none, some "b", some "h"⟩
     b.hash = a.hash ∧ a ≠ b ∧ dedupData [a, b] = [a, b]) := by decide

/-- Claim C5: a table row whose link carries no `nid` is extracted with
    neither `nid` nor `hash` (no extraction stage attaches a content hash),
    so the aggregation pass silently drops the record. -/
theorem c5_missing_hash_drops_record :
    (let row : Container :=
       ⟨"tr", [⟨some ⟨"a", "Event", some "x.aspx"⟩, none, "Event"⟩], fun _ => [], "Event"⟩
     extractTableRow row = some ⟨some "Event", some "x.aspx", none, none, none⟩ ∧
       dedupData [⟨some "Event", some "x.aspx", none, none, none⟩] = []) := by decide

/-! ## Lemmas about table-row extraction (C6) -/

/-- Claim C6, amended: table-row extraction equals the reference extraction
    in which the second cell's date, when present and well-formed, takes
    priority over the hidden span's date (not the other way round), and the
    specification's concrete example row extracts exactly as stated. -/
theorem c6_table_row_amended :
    (∀ row, extractTableRow row = specTableRow row) ∧
    extractTableRow exampleRow =
      some ⟨some "Event X", some "detail.aspx?nid=AB12", some "2024-05-01", some "AB12",
            none⟩ := by
  constructor
  · intro row
    unfold extractTableRow specTableRow
    cases hcells : row.cells with
    | nil => rfl
    | cons c0 rest =>
      cases ha : c0.anchor with
      | none => cases rest <;> simp [truthy, ha] <;> rfl
      | some a =>
        cases rest with
        | nil =>
          by_cases hte : a.text.isEmpty <;> cases hsp : c0.hiddenSpan <;>
            simp [truthy, ha, hte, hsp]
        | cons c1 rest2 =>
          by_cases hte : a.text.isEmpty <;> cases hsp : c0.hiddenSpan <;>
            simp [truthy, ha, hte, hsp]
  · decide

/-- Counterexample to C6 as stated: the first cell's hidden span holds
    `2024-01-01`, so by the claim the extracted date should be `2024-01-01`
    (the second cell only supplying it when the span fails), yet the code
    lets the second cell overwrite the span's date. -/
theorem c6_span_priority_counterexample :
    (let row : Container :=
       ⟨"tr",
        [⟨some ⟨"a", "Event X", some "detail.aspx?nid=AB12"⟩, some "2024-01-01", "Event X"⟩,
         ⟨none, none, "2024-05-01"⟩],
        fun _ => [], "Event X"⟩
     (extractTableRow row).map Rec.date = some (some "2024-05-01") ∧
       (some "2024-05-01" : Option String) ≠ some "2024-01-01") := by decide

/-! ## Lemmas about page-URL generation (C3) -/

lemma strEqData (s t : String) : s = t ↔ s.data = t.data := by
  constructor
  · intro h; rw [h]
  · intro h; cases s; cases t; exact congrArg String.mk h

lemma digitChar_alphanum (m : Nat) (h : m < 10) : (Nat.digitChar m).isAlphanum = true := by
  interval_cases m <;> decide

lemma toDigitsCore_alphanum : ∀ (fuel n : Nat) (acc : List Char),
    (∀ c ∈ acc, c.isAlphanum = true) →
    ∀ c ∈ Nat.toDigitsCore 10 fuel n acc, c.isAlphanum = true := by
  intro fuel
  induction fuel with
  | zero => intro n acc hacc c hc; exact hacc c hc
  | succ f ih =>
    intro n acc hacc c hc
    have hd : ((n % 10).digitChar).isAlphanum = true :=
      digitChar_alphanum _ (Nat.mod_lt _ (by norm_num))
    simp only [Nat.toDigitsCore] at hc
    by_cases hz : n / 10 = 0
    · rw [if_pos hz] at hc
      rcases List.mem_cons.mp hc with h | h
      · exact h ▸ hd
      · exact hacc c h
    · rw [if_neg hz] at hc
      refine ih _ _ ?_ c hc
      intro x hx
      rcases List.mem_cons.mp hx with h | h
      · exact h ▸ hd
      · exact hacc x h

lemma flatMap_quotePlus_id (l : List Char) (h : ∀ c ∈ l, c.isAlphanum = true) :
    l.flatMap quotePlusChar = l := by
  induction l with
  | nil => rfl
  | cons c t ih =>
    rw [List.flatMap_cons, ih fun x hx => h x (List.mem_cons_of_mem _ hx)]
    have hc : quotePlusChar c = [c] := by
      unfold quotePlusChar
      rw [if_pos (by simp [h c (List.mem_cons_self _ _)])]
    rw [hc, List.singleton_append]

lemma quotePlusStr_nat (n : Nat) : quotePlusStr (toString n) = toString n := by
  show quotePlusStr (Nat.repr n) = Nat.repr n
  refine (strEqData _ _).mpr ?_
  show (Nat.repr n).data.flatMap quotePlusChar = (Nat.repr n).data
  refine flatMap_quotePlus_id _ ?_
  show ∀ c ∈ Nat.toDigits 10 n, c.isAlphanum = true
  exact toDigitsCore_alphanum _ _ _ (by intro c hc; exact absurd hc (List.not_mem_nil c))

/-- Claim C3, amended: the generated list holds the URLs of pages 1..N in
    order; page 1 carries only `spid` when the original URL has one; every
    later page carries literally `pg={page}` (plus `spid` when present) —
    independently of the analyzer-inferred or caller-supplied page-parameter
    name, which the code computes but never uses; and the specification's
    concrete example generates exactly the three stated URLs. -/
theorem c3_page_urls_amended :
    (∀ baseUrl totalPages infoPP cfg,
        generatePageUrls baseUrl totalPages infoPP cfg = specGenUrls baseUrl totalPages) ∧
    generatePageUrls "https://site/x.aspx?spid=XYZ" 3 none none =
      ["https://site/x.aspx?spid=XYZ", "https://site/x.aspx?pg=2&spid=XYZ",
       "https://site/x.aspx?pg=3&spid=XYZ"] := by
  constructor
  · intro baseUrl totalPages infoPP cfg
    unfold generatePageUrls specGenUrls
    refine List.map_congr_left ?_
    intro page hpage
    have hpg : quotePlusStr "pg" = "pg" := by decide
    have hspid : quotePlusStr "spid" = "spid" := by decide
    have hnat := quotePlusStr_nat page
    cases hs : spidOf (pyUrlSplit baseUrl).2 with
    | none =>
      simp only [truthy, Option.getD, String.isEmpty, Bool.and_eq_true, decide_eq_true_eq]
      rw [if_neg (by simp [truthy])]
      show (pyUrlSplit baseUrl).1 ++ "?" ++ urlencodePairs [("pg", toString page)] = _
      show _ = (pyUrlSplit baseUrl).1 ++ "?pg=" ++ toString page
      have : urlencodePairs [("pg", toString page)] = "pg" ++ "=" ++ toString page := by
        show quotePlusStr "pg" ++ "=" ++ quotePlusStr (toString page) = _
        rw [hpg, hnat]
      rw [this, strEqData]
      simp only [String.data_append]
      have h1 : "?".data = ['?'] := rfl
      have h2 : "pg".data = ['p', 'g'] := rfl
      have h3 : "=".data = ['='] := rfl
      have h6 : "?pg=".data = ['?', 'p', 'g', '='] := rfl
      simp [h1, h2, h3, h6]
    | some s =>
      have hqp : urlencodePairs [("pg", toString page)] = "pg" ++ "=" ++ toString page := by
        show quotePlusStr "pg" ++ "=" ++ quotePlusStr (toString page) = _
        rw [hpg, hnat]
      have hqs : urlencodePairs [("spid", s)] = "spid" ++ "=" ++ quotePlusStr s := by
        show quotePlusStr "spid" ++ "=" ++ quotePlusStr s = _
        rw [hspid]
      have hqps : urlencodePairs [("pg", toString page), ("spid", s)] =
          "pg" ++ "=" ++ toString page ++ "&" ++ ("spid" ++ "=" ++ quotePlusStr s) := by
        show quotePlusStr "pg" ++ "=" ++ quotePlusStr (toString page) ++ "&" ++
          (quotePlusStr "spid" ++ "=" ++ quotePlusStr s) = _
        rw [hpg, hspid, hnat]
      show (pyUrlSplit baseUrl).1 ++ "?" ++ urlencodePairs
          (if page = 1 ∧ truthy (some s) = true then [("spid", (some s).getD "")]
           else ("pg", toString page) :: (if s.isEmpty then [] else [("spid", s)])) =
        (if s.isEmpty then (pyUrlSplit baseUrl).1 ++ "?pg=" ++ toString page
         else if page = 1 then (pyUrlSplit baseUrl).1 ++ "?spid=" ++ quotePlusStr s
         else (pyUrlSplit baseUrl).1 ++ "?pg=" ++ toString page ++ "&spid=" ++ quotePlusStr s)
      by_cases hse : s.isEmpty
      · rw [if_neg (by simp [truthy, hse]), if_pos hse, if_pos hse]
        show (pyUrlSplit baseUrl).1 ++ "?" ++ urlencodePairs [("pg", toString page)] =
          (pyUrlSplit baseUrl).1 ++ "?pg=" ++ toString page
        rw [hqp, strEqData]
        simp only [String.data_append]
        have h1 : "?".data = ['?'] := rfl
        have h2 : "pg".data = ['p', 'g'] := rfl
        have h3 : "=".data = ['='] := rfl
        have h6 : "?pg=".data = ['?', 'p', 'g', '='] := rfl
        simp [h1, h2, h3, h6]
      · have hse' : s.isEmpty = false := by simpa using hse
        by_cases hp1 : page = 1
        · rw [if_pos ⟨hp1, by simp [truthy, hse']⟩, if_neg hse, if_pos hp1]
          show (pyUrlSplit baseUrl).1 ++ "?" ++ urlencodePairs [("spid", s)] =
            (pyUrlSplit baseUrl).1 ++ "?spid=" ++ quotePlusStr s
          rw [hqs, strEqData]
          simp only [String.data_append]
          have h1 : "?".data = ['?'] := rfl
          have h3 : "=".data = ['='] := rfl
          have h5 : "spid".data = ['s', 'p', 'i', 'd'] := rfl
          have h8 : "?spid=".data = ['?', 's', 'p', 'i', 'd', '='] := rfl
          simp [h1, h3, h5, h8]
        · rw [if_neg (fun hand => hp1 hand.1), if_neg hse, if_neg hse, if_neg hp1]
          show (pyUrlSplit baseUrl).1 ++ "?" ++
              urlencodePairs [("pg", toString page), ("spid", s)] =
            (pyUrlSplit baseUrl).1 ++ "?pg=" ++ toString page ++ "&spid=" ++ quotePlusStr s
          rw [hqps, strEqData]
          simp only [String.data_append]
          have h1 : "?".data = ['?'] := rfl
          have h2 : "pg".data = ['p', 'g'] := rfl
          have h3 : "=".data = ['='] := rfl
          have h4 : "&".data = ['&'] := rfl
          have h5 : "spid".data = ['s', 'p', 'i', 'd'] := rfl
          have h6 : "?pg=".data = ['?', 'p', 'g', '='] := rfl
          have h7 : "&spid=".data = ['&', 's', 'p', 'i', 'd', '='] := rfl
          simp [h1, h2, h3, h4, h5, h6, h7]
  · decide

/-- Counterexample to C3 as stated: with a caller override naming the page
    parameter `page`, the claim requires the second URL to carry `page=2`,
    but the generator hardcodes `pg`. -/
theorem c3_page_param_counterexample :
    generatePageUrls "https://site/x.aspx?spid=XYZ" 2 none (some (some "page")) ≠
      ["https://site/x.aspx?spid=XYZ", "https://site/x.aspx?page=2&spid=XYZ"] := by decide

/-! ## Lemmas about pagination inference (C8, C9) -/

lemma foldl_max_eq (a : Nat) (l : List Nat) : l.foldl max a = max a (l.foldr max 0) := by
  induction l generalizing a with
  | nil => simp
  | cons c t ih => rw [List.foldl_cons, ih, List.foldr_cons, Nat.max_assoc]

lemma flatFold_eq (l : List Anchor) (acc : Nat) :
    l.foldl (fun acc a => (pgNums (a.href.getD "").data).foldl max acc) acc =
      (l.flatMap fun a => pgNums (a.href.getD "").data).foldl max acc := by
  induction l generalizing acc with
  | nil => rfl
  | cons a t ih => rw [List.foldl_cons, List.flatMap_cons, List.foldl_append, ih]

lemma anchorFold_eq (l : List Anchor) (acc : Nat) :
    l.foldl (fun acc a =>
      if lastTextB a.text then
        let t := pyStrip a.text
        if pyIsDigit t then max acc (digitsVal t.data) else acc
      else acc) acc =
    ((l.filter fun a => lastTextB a.text).filterMap fun a =>
      let t := pyStrip a.text
      if pyIsDigit t then some (digitsVal t.data) else none).foldl max acc := by
  induction l generalizing acc with
  | nil => rfl
  | cons a t ih =>
    by_cases hl : lastTextB a.text
    · by_cases hd : pyIsDigit (pyStrip a.text) <;>
        simp [List.filter_cons, List.filterMap_cons, hl, hd, ih]
    · simp [List.filter_cons, hl, ih]

/-- Claim C8, amended: the inferred total equals 2 when a next-page control
    exists and every page number found across the three signals is at most 1
    (including the case where `pg=1` or `pg=0` was found); otherwise it is
    the maximum found number floored at 1.  The specification's two concrete
    examples evaluate as stated. -/
theorem c8_total_pages_amended :
    (∀ p, extractTotalPages p =
        if hasNextCtrl p = true ∧ (signalNums p).foldr max 0 ≤ 1 then 2
        else max 1 ((signalNums p).foldr max 0)) ∧
    extractTotalPages pgFivePage = 5 ∧ extractTotalPages pgThreePage = 3 := by
  refine ⟨?_, by decide, by decide⟩
  intro p
  simp only [extractTotalPages]
  rw [flatFold_eq, anchorFold_eq]
  have hchain :
      (((p.anchors.filter fun a => lastTextB a.text).filterMap fun a =>
          let t := pyStrip a.text
          if pyIsDigit t then some (digitsVal t.data) else none).foldl max
        ((match p.pagContainer with
          | some pc => (pagTextNums pc.2.data).foldl max
              (((hrefAnchors p).flatMap fun a => pgNums (a.href.getD "").data).foldl max 1)
          | none =>
            ((hrefAnchors p).flatMap fun a => pgNums (a.href.getD "").data).foldl max 1))) =
      max 1 ((signalNums p).foldr max 0) := by
    have hsig : (signalNums p).foldl max 1 =
        (lastNums p).foldl max ((contNums p).foldl max ((linkNums p).foldl max 1)) := by
      simp only [signalNums, List.foldl_append]
    have hm2 : (match p.pagContainer with
        | some pc => (pagTextNums pc.2.data).foldl max
            (((hrefAnchors p).flatMap fun a => pgNums (a.href.getD "").data).foldl max 1)
        | none =>
          ((hrefAnchors p).flatMap fun a => pgNums (a.href.getD "").data).foldl max 1) =
        (contNums p).foldl max ((linkNums p).foldl max 1) := by
      cases hpc : p.pagContainer <;> simp [contNums, linkNums, hpc]
    rw [hm2]
    have hlast : ((p.anchors.filter fun a => lastTextB a.text).filterMap fun a =>
        let t := pyStrip a.text
        if pyIsDigit t then some (digitsVal t.data) else none) = lastNums p := rfl
    rw [hlast, ← hsig, foldl_max_eq]
  rw [hchain]
  set S := (signalNums p).foldr max 0 with hS
  by_cases hnext : hasNextCtrl p = true
  · by_cases hle : S ≤ 1
    · have h1 : max 1 S = 1 := Nat.max_eq_left hle
      rw [if_pos ⟨hnext, h1⟩, if_pos ⟨hnext, hle⟩]
      omega
    · have h1 : max 1 S ≠ 1 := by omega
      rw [if_neg (fun h => h1 h.2), if_neg (fun h => hle h.2)]
      omega
  · rw [if_neg (fun h => hnext h.1), if_neg (fun h => hnext h.1)]
    omega

/-- Counterexample to C8 as stated: a page whose links carry `pg=1` and which
    has a next-page control — a page number was found, so by the claim the
    total should be the floored maximum 1, but the code reports 2. -/
theorem c8_found_one_counterexample :
    signalNums pgOneNextPage ≠ [] ∧
      extractTotalPages pgOneNextPage ≠ max 1 ((signalNums pgOneNextPage).foldr max 0) := by
  decide

/-- Claim C9: whenever pagination detection returns a `PaginationInfo`, its
    `total_pages` and `current_page` are at least 1 — also for pages whose
    URL hints carry `pg=0` or whose active indicator reads `0`, which the
    falsiness test resets to 1. -/
theorem c9_pagination_bounds (p : PagPage) (info : PaginationInfo)
    (h : detectPagination p = some info) :
    1 ≤ info.totalPages ∧ 1 ≤ info.currentPage := by
  simp only [detectPagination] at h
  cases hc : extractCurrentPage p with
  | none => rw [hc] at h; exact absurd h (by simp)
  | some c =>
    rw [hc] at h
    simp only [Option.some.injEq] at h
    subst h
    constructor
    · by_cases h1 : 1 < extractTotalPages p <;> simp [h1]
      omega
    · by_cases h2 : c ≠ 0 <;> simp [h2]
      omega

/-- Witness for C9 at the `pg=0` page. -/
theorem c9_pagination_bounds_witness :
    1 ≤ (PaginationInfo.mk 1 1 "pg={page}" (some "a.aspx?pg=0") none).totalPages ∧
      1 ≤ (PaginationInfo.mk 1 1 "pg={page}" (some "a.aspx?pg=0") none).currentPage :=
  c9_pagination_bounds pgZeroPage _ (by decide)

/-- Claim C10: `parse` is total on the embedding; a `None` soup yields `[]`,
    a selector matching no containers yields `[]`, and a container whose
    extraction step fails is skipped while every other container still
    contributes (the `try/except continue` loop splits around it). -/
theorem c10_parse_total :
    (∀ maxItems sel tm, parse maxItems none sel tm = []) ∧
    (∀ maxItems p sel tm, (p.select sel).isEmpty = true → parse maxItems (some p) sel tm = []) ∧
    (∀ g pre post bad, g bad = Except.error () →
        extractLoop g (pre ++ bad :: post) = extractLoop g pre ++ extractLoop g post) := by
  refine ⟨fun _ _ _ => rfl, ?_, ?_⟩
  · intro maxItems p sel tm h
    simp [parse, h]
  · intro g pre post bad hbad
    induction pre with
    | nil => simp [extractLoop, hbad]
    | cons c cs ih =>
      simp only [List.cons_append, extractLoop]
      cases hg : g c with
      | error u => simp [ih]
      | ok o => cases o <;> simp [ih]

/-- Witness for C10: an empty selector result yields `[]`, and a loop whose
    single step fails contributes nothing. -/
theorem c10_parse_total_witness :
    parse 5 (some ⟨fun _ => []⟩) "div" none = [] ∧
    extractLoop (fun _ => Except.error ()) ([] ++ exampleRow :: []) =
      extractLoop (fun _ => Except.error ()) [] ++ extractLoop (fun _ => Except.error ()) [] :=
  ⟨c10_parse_total.2.1 5 ⟨fun _ => []⟩ "div" none rfl,
   c10_parse_total.2.2 (fun _ => Except.error ()) [] [] exampleRow rfl⟩

/-! ## Lemmas about trimmed strings and extracted titles (C7) -/

lemma stripL_ne_nil_of_head (c : Char) (t : List Char) (hc : c.isWhitespace = false) :
    stripL (c :: t) ≠ [] := by
  unfold stripL
  rw [List.dropWhile_cons, if_neg (by simp [hc])]
  intro h
  have h2 : (c :: t).reverse.dropWhile Char.isWhitespace = [] := by
    rw [← List.reverse_eq_nil_iff]
    exact h
  have h3 := List.dropWhile_eq_nil_iff.mp h2 c (by simp)
  rw [hc] at h3
  exact Bool.false_ne_true h3

lemma head_not_ws_of_strip_eq (c : Char) (t : List Char) (h : stripL (c :: t) = c :: t) :
    c.isWhitespace = false := by
  cases hw : c.isWhitespace with
  | false => rfl
  | true =>
    exfalso
    have hlen : (stripL (c :: t)).length ≤ t.length := by
      unfold stripL
      rw [List.dropWhile_cons, if_pos hw]
      calc ((t.dropWhile Char.isWhitespace).reverse.dropWhile Char.isWhitespace).reverse.length
          = ((t.dropWhile Char.isWhitespace).reverse.dropWhile Char.isWhitespace).length :=
            List.length_reverse _
        _ ≤ (t.dropWhile Char.isWhitespace).reverse.length :=
            (List.dropWhile_sublist _).length_le
        _ = (t.dropWhile Char.isWhitespace).length := List.length_reverse _
        _ ≤ t.length := (List.dropWhile_sublist _).length_le
    rw [h] at hlen
    simp at hlen

lemma pyStrip_take_ne (s : String) (h : pyStrip s = s) (hne : s ≠ "") (n : Nat)
    (hn : 1 ≤ n) : pyStrip (pyTake n s) ≠ "" := by
  cases hd : s.data with
  | nil =>
    exfalso
    apply hne
    cases s
    simp only at hd
    rw [hd]
  | cons c t =>
    have hstrip : stripL (c :: t) = c :: t := by
      have h2 : stripL s.data = s.data := congrArg String.data h
      rw [hd] at h2
      exact h2
    have hcws := head_not_ws_of_strip_eq c t hstrip
    intro hcontra
    have h3 : stripL (s.data.take n) = [] := congrArg String.data hcontra
    rw [hd] at h3
    cases n with
    | zero => omega
    | succ m =>
      rw [List.take_succ_cons] at h3
      exact stripL_ne_nil_of_head c _ hcws h3

lemma mem_extractLoop (g : Container → Except Unit (Option Rec)) :
    ∀ (cs : List Container) (r : Rec), r ∈ extractLoop g cs →
      ∃ c ∈ cs, g c = Except.ok (some r) := by
  intro cs
  induction cs with
  | nil => intro r hr; simp [extractLoop] at hr
  | cons c t ih =>
    intro r hr
    cases hg : g c with
    | error u =>
      simp only [extractLoop, hg] at hr
      obtain ⟨c2, hc2, hh⟩ := ih r hr
      exact ⟨c2, List.mem_cons_of_mem _ hc2, hh⟩
    | ok o =>
      cases o with
      | none =>
        simp only [extractLoop, hg] at hr
        obtain ⟨c2, hc2, hh⟩ := ih r hr
        exact ⟨c2, List.mem_cons_of_mem _ hc2, hh⟩
      | some r0 =>
        simp only [extractLoop, hg] at hr
        rcases List.mem_cons.mp hr with h | h
        · exact ⟨c, List.mem_cons_self _ _, by rw [hg, h]⟩
        · obtain ⟨c2, hc2, hh⟩ := ih r h
          exact ⟨c2, List.mem_cons_of_mem _ hc2, hh⟩

lemma extractTableRow_title_good (c : Container) (hwf : ContainerWF c) (r : Rec)
    (h : extractTableRow c = some r) :
    ∀ t, r.title = some t → t ≠ "" → pyStrip t ≠ "" := by
  intro t ht htne
  unfold extractTableRow at h
  cases hcells : c.cells with
  | nil => rw [hcells] at h; exact absurd h (by simp)
  | cons c0 rest =>
    rw [hcells] at h
    cases ha : c0.anchor with
    | none =>
      simp [ha, truthy] at h
      exact absurd h.1 (by decide)
    | some a =>
      simp only [ha] at h
      by_cases htr : truthy (some a.text) = true
      · rw [if_pos htr] at h
        have hr0 := Option.some.inj h
        have hta : t = a.text := by
          have := congrArg Rec.title hr0
          rw [ht] at this
          exact (Option.some.inj this).symm
        have hcell : CellWF c0 := hwf.2.2 c0 (by rw [hcells]; exact List.mem_cons_self _ _)
        have htrim : pyStrip a.text = a.text := hcell.1 a ha
        rw [hta, htrim]
        rw [hta] at htne
        exact htne
      · rw [if_neg htr] at h
        exact absurd h (by simp)

lemma generalTitle_good (c : Container) (hwf : ContainerWF c) (det : Detected) :
    ∀ u : String, generalTitle c det = some u → u ≠ "" → pyStrip u ≠ "" := by
  intro u hu hune
  have hgne : ∀ hu2 : some (pyTake 100 c.getText) = some u, pyStrip u ≠ "" := by
    intro hu2
    have hup : u = pyTake 100 c.getText := (Option.some.inj hu2).symm
    have hg : c.getText ≠ "" := by
      intro hg0
      apply hune
      rw [hup, hg0]
      rfl
    rw [hup]
    exact pyStrip_take_ne c.getText hwf.1 hg 100 (by omega)
  unfold generalTitle at hu
  cases hdt : det.title with
  | none => rw [hdt] at hu; exact absurd hu (by simp)
  | some sel =>
    rw [hdt] at hu
    have hu2 : (if sel = "*" then some (pyTake 100 c.getText)
        else ((c.select sel).head?).map Elem.text) = some u := hu
    by_cases hstar : sel = "*"
    · rw [if_pos hstar] at hu2
      exact hgne hu2
    · rw [if_neg hstar] at hu2
      obtain ⟨e, he, hte⟩ := Option.map_eq_some'.mp hu2
      have hmem : e ∈ c.select sel := List.mem_of_mem_head? he
      have htrim := hwf.2.1 sel e hmem
      rw [← hte, htrim]
      rw [← hte] at hune
      exact hune

lemma generalTitle2_good (c : Container) (hwf : ContainerWF c) (det : Detected) :
    ∀ u : String, generalTitle2 c det = some u → u ≠ "" → pyStrip u ≠ "" := by
  intro u hu hune
  simp only [generalTitle2] at hu
  split at hu
  · exact generalTitle_good c hwf det u hu hune
  · split at hu
    · exact generalTitle_good c hwf det u hu hune
    · have hup : u = pyTake 100 c.getText := (Option.some.inj hu).symm
      have hg : c.getText ≠ "" := by
        intro hg0
        apply hune
        rw [hup, hg0]
        rfl
      rw [hup]
      exact pyStrip_take_ne c.getText hwf.1 hg 100 (by omega)

lemma extractGeneralRow_title_good (c : Container) (hwf : ContainerWF c) (det : Detected)
    (r : Rec) (h : extractGeneralRow c det = some r) :
    ∀ t, r.title = some t → t ≠ "" → pyStrip t ≠ "" := by
  intro t ht htne
  obtain ⟨rt, rl, rd, rn, rh⟩ := r
  unfold extractGeneralRow at h
  split at h
  · have hinj := Option.some.inj h
    injection hinj with hT hL hD hN hH
    exact generalTitle2_good c hwf det t (hT.trans ht) htne
  · exact absurd h (by simp)

lemma rawParse_title_good (p : ParsePage) (hwf : PageWF p) (sel : String) (tm : Option Bool)
    (r : Rec) (hr : r ∈ rawParse p sel tm) :
    ∀ t, r.title = some t → t ≠ "" → pyStrip t ≠ "" := by
  intro t ht htne
  unfold rawParse at hr
  by_cases hmode : (tm.getD false || isTableMode sel) = true
  · rw [if_pos hmode] at hr
    obtain ⟨c, hc, hstep⟩ := mem_extractLoop _ _ _ hr
    have hcwf := hwf sel c hc
    unfold tableStep at hstep
    have hstep2 := Except.ok.inj hstep
    split at hstep2
    · exact absurd hstep2 (by simp)
    · cases he : extractTableRow c with
      | none => rw [he] at hstep2; exact absurd hstep2 (by simp)
      | some r0 =>
        rw [he] at hstep2
        have hstep3 : (if recAnyValues r0 = true then some r0 else none) = some r := hstep2
        split at hstep3
        · have hr0 : r0 = r := Option.some.inj hstep3
          rw [hr0] at he
          exact extractTableRow_title_good c hcwf r he t ht htne
        · exact absurd hstep3 (by simp)
  · rw [if_neg hmode] at hr
    obtain ⟨c, hc, hstep⟩ := mem_extractLoop _ _ _ hr
    have hcwf := hwf sel c hc
    unfold generalStep at hstep
    have hstep2 := Except.ok.inj hstep
    cases he : extractGeneralRow c
        (match (p.select sel).head? with
         | some c0 => autoDetectFields c0
         | none => ⟨none, none, none⟩) with
    | none => rw [he] at hstep2; exact absurd hstep2 (by simp)
    | some r0 =>
      rw [he] at hstep2
      have hstep3 : (if recAnyValues r0 = true then some r0 else none) = some r := hstep2
      split at hstep3
      · have hr0 : r0 = r := Option.some.inj hstep3
        rw [hr0] at he
        exact extractGeneralRow_title_good c hcwf _ r he t ht htne
      · exact absurd hstep3 (by simp)

/-- Claim C7: on a well-formed page model (all `get_text(strip=True)` fields
    trimmed, as BeautifulSoup guarantees), every record `parse` emits has a
    title that is non-empty after stripping, and the output is exactly the
    validated raw extraction truncated to `max_items`, truncation after
    validation and order-preserving. -/
theorem c7_parse_titles :
    ∀ maxItems p sel tm, PageWF p →
      (∀ r ∈ parse maxItems (some p) sel tm,
        ∃ t, r.title = some t ∧ t ≠ "" ∧ pyStrip t ≠ "") ∧
      parse maxItems (some p) sel tm = (validateData (rawParse p sel tm)).take maxItems := by
  intro maxItems p sel tm hwf
  have heq : parse maxItems (some p) sel tm =
      (validateData (rawParse p sel tm)).take maxItems := by
    show (if (p.select sel).isEmpty then [] else (validateData (rawParse p sel tm)).take maxItems)
      = (validateData (rawParse p sel tm)).take maxItems
    by_cases hh : (p.select sel).isEmpty
    · rw [if_pos hh]
      have hsel : p.select sel = [] := by
        cases hps : p.select sel with
        | nil => rfl
        | cons a l => rw [hps] at hh; simp at hh
      have hraw : rawParse p sel tm = [] := by
        simp only [rawParse, hsel]
        split <;> rfl
      rw [hraw]
      simp [validateData]
    · rw [if_neg hh]
  refine ⟨?_, heq⟩
  intro r hr
  rw [heq] at hr
  have hr2 : r ∈ validateData (rawParse p sel tm) := (List.take_sublist _ _).subset hr
  obtain ⟨hraw, htruthy⟩ := List.mem_filter.mp hr2
  cases hti : r.title with
  | none =>
    rw [hti] at htruthy
    simp [truthy] at htruthy
    exact absurd htruthy (by decide)
  | some t =>
    have htne : t ≠ "" := by
      rw [hti] at htruthy
      intro heq2
      rw [heq2] at htruthy
      simp [truthy] at htruthy
      exact absurd htruthy (by decide)
    exact ⟨t, rfl, htne, rawParse_title_good p hwf sel tm r hraw t hti htne⟩

lemma tablePage_wf : PageWF tablePage := by
  intro s c hc
  have hceq : c = exampleRow := by simpa [tablePage] using hc
  subst hceq
  refine ⟨by decide, ?_, ?_⟩
  · intro s2 e he
    simp [exampleRow] at he
  · intro cell hcell
    simp only [exampleRow, List.mem_cons, List.mem_singleton] at hcell
    rcases hcell with h | h | h
    · subst h
      refine ⟨?_, by decide⟩
      intro a ha
      have h2 := Option.some.inj ha
      rw [← h2]
      decide
    · subst h
      refine ⟨?_, by decide⟩
      intro a ha
      exact absurd ha (by simp)
    · exact absurd h (by simp)

/-- Witness for C7 on the concrete single-row table page. -/
theorem c7_parse_titles_witness :
    (∀ r ∈ parse 5 (some tablePage) "tbody tr" none,
      ∃ t, r.title = some t ∧ t ≠ "" ∧ pyStrip t ≠ "") ∧
    parse 5 (some tablePage) "tbody tr" none =
      (validateData (rawParse tablePage "tbody tr" none)).take 5 :=
  c7_parse_titles 5 tablePage "tbody tr" none tablePage_wf

/-! ## Lemmas about the per-site pipeline (C2) -/

lemma isEmpty_false_of_ne (s : String) (h : s ≠ "") : s.isEmpty = false := by
  rw [Bool.eq_false_iff]
  intro hc
  exact h ((String.isEmpty_iff s).mp hc)

lemma storedKey_inj (a b : StoredRec) (h : storedKey a = storedKey b) : a = b := by
  cases a; cases b
  simp only [storedKey, Prod.mk.injEq] at h
  simp [h.1, h.2]

lemma mem_keepFirstGo : ∀ (l : List StoredRec)
    (seen : List (Option String × Option String)) (a : StoredRec),
    a ∈ keepFirstGo seen l ↔ a ∈ l ∧ storedKey a ∉ seen := by
  intro l
  induction l with
  | nil => intro seen a; simp [keepFirstGo]
  | cons s rest ih =>
    intro seen a
    unfold keepFirstGo
    by_cases hs : storedKey s ∈ seen
    · rw [if_pos hs, ih]
      constructor
      · rintro ⟨ha, hna⟩
        exact ⟨List.mem_cons_of_mem _ ha, hna⟩
      · rintro ⟨ha, hna⟩
        rcases List.mem_cons.mp ha with h | h
        · subst h; exact absurd hs hna
        · exact ⟨h, hna⟩
    · rw [if_neg hs]
      constructor
      · intro hmem
        rcases List.mem_cons.mp hmem with h | h
        · subst h; exact ⟨List.mem_cons_self _ _, hs⟩
        · obtain ⟨ha, hna⟩ := (ih _ _).mp h
          exact ⟨List.mem_cons_of_mem _ ha, fun hk => hna (List.mem_cons_of_mem _ hk)⟩
      · rintro ⟨ha, hna⟩
        by_cases hks : storedKey a = storedKey s
        · have haeq : a = s := storedKey_inj _ _ hks
          subst haeq
          exact List.mem_cons_self _ _
        · have harest : a ∈ rest := by
            rcases List.mem_cons.mp ha with h | h
            · exact absurd (h ▸ rfl) hks
            · exact h
          refine List.mem_cons_of_mem _ ((ih _ _).mpr ⟨harest, ?_⟩)
          intro hk
          rcases List.mem_cons.mp hk with h2 | h2
          · exact hks h2
          · exact hna h2

lemma mem_dropDupKeepLast (l : List StoredRec) (a : StoredRec) :
    a ∈ dropDupKeepLast l ↔ a ∈ l := by
  unfold dropDupKeepLast
  rw [List.mem_reverse, mem_keepFirstGo]
  simp

lemma mem_sortStore (l : List StoredRec) (a : StoredRec) : a ∈ sortStore l ↔ a ∈ l :=
  (List.perm_insertionSort _ l).mem_iff

lemma mem_saveData_of (store newRecs : List StoredRec) (a : StoredRec)
    (ha : a ∈ store ∨ a ∈ newRecs)
    (hnorm : pdNormalizeCell a.startDate = a.startDate) :
    a ∈ saveData store newRecs := by
  unfold saveData
  by_cases h : newRecs.isEmpty
  · rw [if_pos h]
    have hnil : newRecs = [] := List.isEmpty_iff.mp h
    rcases ha with ha | ha
    · exact ha
    · rw [hnil] at ha
      exact absurd ha (List.not_mem_nil a)
  · rw [if_neg h, mem_sortStore]
    have hmem : a ∈ dropDupKeepLast (store ++ newRecs) :=
      (mem_dropDupKeepLast _ _).mpr (List.mem_append.mpr ha)
    refine List.mem_map.mpr ⟨a, hmem, ?_⟩
    cases a with
    | mk an sd => exact congrArg (StoredRec.mk an) hnorm

lemma detectNewData_eq_nil (l : List Rec) (store : List StoredRec)
    (h : ∀ r ∈ l, recKey r ∈ existingKeys store) : detectNewData l store = [] := by
  unfold detectNewData
  cases l with
  | nil => simp
  | cons a t =>
    simp only [List.isEmpty_cons, Bool.false_eq_true, if_false]
    rw [List.filter_eq_nil_iff]
    intro r hr
    simp [h r hr]

lemma mem_store_runSite (listData : List Rec) (store : List StoredRec)
    (outcome : Rec → Option (Option String)) (s : StoredRec) (hs : s ∈ store)
    (hnorm : pdNormalizeCell s.startDate = s.startDate) :
    s ∈ runSite listData store outcome := by
  simp only [runSite]
  split
  · exact hs
  · exact mem_saveData_of _ _ _ (Or.inl hs) hnorm

lemma mem_detailed_runSite (listData : List Rec) (store : List StoredRec)
    (outcome : Rec → Option (Option String)) (d : StoredRec)
    (hd : d ∈ (detectNewData listData store).filterMap
        fun it => (outcome it).bind (fetchDetailKey it))
    (hnorm : pdNormalizeCell d.startDate = d.startDate) :
    d ∈ runSite listData store outcome := by
  simp only [runSite]
  split
  · next hempty =>
    rw [List.isEmpty_iff.mp hempty] at hd
    exact absurd hd (List.not_mem_nil d)
  · exact mem_saveData_of _ _ _ (Or.inr hd) hnorm

/-- Claim C2, amended: against an already-populated store whose start dates
    are invariant under the save-time pandas date round trip (as every
    program-written store is), the second run classifies zero records as new
    provided every listing record has a non-empty already-trimmed title, a
    link, and a date that the round trip preserves verbatim (an exact
    calendar-valid `YYYY-MM-DD`), detail enrichment of each newly detected
    record succeeds, and the stored start date is not rewritten away from
    the listing date (the enrichment either parses no date or parses exactly
    the listing date).  A listing date that merely begins with `YYYY-MM-DD`,
    a store rewrite, a missing date, or a missing link each re-detects the
    record instead. -/
theorem c2_idempotent_amended (listData : List Rec) (store0 : List StoredRec)
    (outcome : Rec → Option (Option String))
    (hstore : ∀ s ∈ store0, pdNormalizeCell s.startDate = s.startDate)
    (h : ∀ r ∈ listData, ∃ t d, r.title = some t ∧ pyStrip t = t ∧ t ≠ "" ∧
        truthy r.link = true ∧ r.date = some d ∧ pdToDatetimeYmd d = some d ∧
        (outcome r = some none ∨ outcome r = some (some d))) :
    detectNewData listData (runSite listData store0 outcome) = [] := by
  apply detectNewData_eq_nil
  intro r hr
  obtain ⟨t, d, ht, hts, htne, hlink, hd, hdn, hout⟩ := h r hr
  have hdne : d ≠ "" := by
    intro hde
    rw [hde] at hdn
    exact absurd hdn (by decide)
  have hkey : recKey r = (t, d) := by simp [recKey, ht, hd]
  by_cases hblock : recKey r ∈ existingKeys store0
  · rw [mem_existingKeys] at hblock
    obtain ⟨s, hs, h1, h2, h3⟩ := hblock
    rw [mem_existingKeys]
    exact ⟨s, mem_store_runSite _ _ _ s hs (hstore s hs), h1, h2, h3⟩
  · have hnew : r ∈ detectNewData listData store0 := by
      unfold detectNewData
      cases hld : listData with
      | nil => exact absurd (hld ▸ hr) (List.not_mem_nil r)
      | cons a tl =>
        simp only [List.isEmpty_cons, Bool.false_eq_true, if_false]
        exact List.mem_filter.mpr ⟨hld ▸ hr, by simpa using hblock⟩
    have hname : pyStrip (r.title.getD "") = t := by rw [ht]; exact hts
    have hfd : (outcome r).bind (fetchDetailKey r) = some ⟨some t, some d⟩ := by
      rcases hout with hout | hout
      · rw [hout]
        show fetchDetailKey r none = some ⟨some t, some d⟩
        unfold fetchDetailKey
        rw [if_neg (fun hc => hc hlink)]
        show (if (pyStrip (r.title.getD "")).isEmpty then none
          else some (⟨some (pyStrip (r.title.getD "")), r.date⟩ : StoredRec)) =
          some (⟨some t, some d⟩ : StoredRec)
        rw [hname, hd, if_neg (by rw [isEmpty_false_of_ne t htne]; simp)]
      · rw [hout]
        show fetchDetailKey r (some d) = some ⟨some t, some d⟩
        unfold fetchDetailKey
        rw [if_neg (fun hc => hc hlink)]
        show (if (pyStrip (r.title.getD "")).isEmpty then none
          else some (⟨some (pyStrip (r.title.getD "")), some d⟩ : StoredRec)) =
          some (⟨some t, some d⟩ : StoredRec)
        rw [hname, if_neg (by rw [isEmpty_false_of_ne t htne]; simp)]
    have hdmem : (⟨some t, some d⟩ : StoredRec) ∈
        (detectNewData listData store0).filterMap
          fun it => (outcome it).bind (fetchDetailKey it) :=
      List.mem_filterMap.mpr ⟨r, hnew, hfd⟩
    have hsaved := mem_detailed_runSite listData store0 outcome _ hdmem hdn
    rw [mem_existingKeys]
    refine ⟨⟨some t, some d⟩, hsaved, ?_, ?_, ?_⟩
    · simp [truthy, isEmpty_false_of_ne t htne]
    · simp [truthy, isEmpty_false_of_ne d hdne]
    · exact hkey.symm

/-- Witness for C2 with one record, an empty initial store, and an enrichment
    that parses no date. -/
theorem c2_idempotent_amended_witness :
    detectNewData [⟨some "T", some "L", some "2024-01-02", none, none⟩]
      (runSite [⟨some "T", some "L", some "2024-01-02", none, none⟩] []
        fun _ => some none) = [] :=
  c2_idempotent_amended _ _ _ (fun s hs => absurd hs (List.not_mem_nil s)) (by
    intro r hr
    have hre : r = ⟨some "T", some "L", some "2024-01-02", none, none⟩ := by simpa using hr
    subst hre
    exact ⟨"T", "2024-01-02", rfl, by decide, by decide, by decide, rfl, by decide,
      Or.inl rfl⟩)

/-- The save-time date normalization is itself a re-detection source: a
    listing date `2024-05-01 14:00` (the second-cell table path can emit
    such values) is stored as `2024-05-01`, so the unchanged listing no
    longer matches the store and is detected as new again. -/
lemma normalizeDate_redetect_demo :
    (let r : Rec := ⟨some "X", some "L", some "2024-05-01 14:00", none, none⟩
     detectNewData [r] (runSite [r] [] fun _ => some none) = [r]) := by decide

/-- Counterexample to C2 as stated: the listing record's date is
    `2024-05-01` but detail enrichment rewrites the stored start date to
    `2024-06-01`, so the very same unchanged listing is classified as new
    again on the second run against the store the first run produced. -/
theorem c2_rewrite_counterexample :
    (let r : Rec := ⟨some "X", some "L", some "2024-05-01", none, none⟩
     detectNewData [r]
        (runSite [r] [⟨some "Y", some "2024-01-01"⟩] fun _ => some (some "2024-06-01")) =
       [r] ∧ ([r] : List Rec) ≠ []) := by decide

end TKU
